import Mathlib

/-!
# Shallow embedding of `src/public/examples/signal_generator.py`

The script has four parts:
* `get_bars` — one authenticated HTTP GET returning the `bars` array or `None`;
* `submit_signals` — one authenticated HTTP POST returning a success Boolean;
* `generate_signals` — a pure function from a bar list to `(points, lines)`,
  detecting inside bars and emitting one marker plus five horizontal lines
  (entry / stop-loss / TP1 / TP2 / TP3) per detection;
* `run_once` — fetch, generate, submit once.

Prices are embedded as exact rationals (`ℚ`); Python float arithmetic is
modelled exactly.  The HTTP layer is abstracted as the outcome of the one
transport call each function makes (a completed response with status and
parsed body, or a raised exception); console logging and the free-form
`metadata` dictionary do not affect any returned value and are not modelled.
`run_once` returns, besides the Boolean result of the Python function, a
second Boolean recording whether the submission call was performed.
-/

set_option autoImplicit false

namespace SignalGenerator

/-- One OHLC bar, as returned by the bars endpoint:
`{ time, open, high, low, close, volume }`. -/
structure Bar where
  time : Int
  «open» : ℚ
  high : ℚ
  low : ℚ
  close : ℚ
  volume : ℚ
deriving DecidableEq, Inhabited, Repr

/-- One marker dictionary appended to `points` in `generate_signals`. -/
structure Point where
  time : Int
  type : String
  price : ℚ
  label : String
  color : String
  shape : String
  size : Nat
deriving DecidableEq, Inhabited, Repr

/-- One horizontal-line dictionary appended to `lines` in `generate_signals`. -/
structure Line where
  id : String
  price : ℚ
  start_time : Int
  bars : Nat
  label : String
  color : String
  style : String
  width : Nat
deriving DecidableEq, Inhabited, Repr

/-! ## Decimal rendering

`generate_signals` formats the signal counter with Python `{:03d}` and the
prices with `{:.5f}`.  We embed decimal rendering of naturals directly (the
fuel argument makes the definition structurally recursive, hence kernel
reducible). -/

/-- Decimal digits of `n`, most significant first; `fuel ≥ n + 1` suffices. -/
def decDigitsAux : Nat → Nat → List Char
  | 0, _ => []
  | fuel + 1, n =>
    if n < 10 then [Nat.digitChar n]
    else decDigitsAux fuel (n / 10) ++ [Nat.digitChar (n % 10)]

/-- Decimal digits of `n`, most significant first. -/
def decDigits (n : Nat) : List Char :=
  decDigitsAux (n + 1) n

/-- Decimal rendering of a natural number (Python `{:d}`). -/
def decString (n : Nat) : String :=
  String.mk (decDigits n)

/-- Zero-pad a digit list on the left to width `w` (Python `{:0wd}`). -/
def zeroPadLeft (w : Nat) (l : List Char) : List Char :=
  List.replicate (w - l.length) '0' ++ l

/-- `f"signal_{signal_count:03d}"` (line 181 of the script). -/
def signal_id (cnt : Nat) : String :=
  "signal_" ++ String.mk (zeroPadLeft 3 (decDigits cnt))

/-- Python `f"{q:.5f}"`: the price rendered with exactly five decimals
(half-up rounding of the exact rational). -/
def fmt5 (q : ℚ) : String :=
  let u : Nat := (round (|q| * 100000) : Int).toNat
  (if q < 0 then "-" else "")
    ++ String.mk (decDigits (u / 100000))
    ++ "."
    ++ String.mk (zeroPadLeft 5 (decDigits (u % 100000)))

/-! ## `generate_signals` (lines 136–332) -/

/-- `curr["high"] < prev["high"] and curr["low"] > prev["low"]` (lines 165–168). -/
def isInsideBar (prev curr : Bar) : Bool :=
  decide (curr.high < prev.high ∧ curr.low > prev.low)

/-- `mid_point = (prev["high"] + prev["low"]) / 2` (line 174). -/
def mid_point (prev : Bar) : ℚ :=
  (prev.high + prev.low) / 2

/-- The BUY marker (lines 192–200). -/
def bullishPoint (curr : Bar) : Point :=
  { time := curr.time, type := "low", price := curr.close, label := "BUY",
    color := "#3b82f6", shape := "arrowUp", size := 2 }

/-- The SELL marker (lines 266–274). -/
def bearishPoint (curr : Bar) : Point :=
  { time := curr.time, type := "high", price := curr.close, label := "SELL",
    color := "#f97316", shape := "arrowDown", size := 2 }

/-- The five lines of a bullish signal (lines 186–256). -/
def bullishLines (prev curr : Bar) (sid : String) : List Line :=
  let bar_time := curr.time
  let entry_price := curr.close
  let stop_loss := prev.low - 0.0005
  let tp1 := entry_price + (entry_price - stop_loss) * 1
  let tp2 := entry_price + (entry_price - stop_loss) * 2
  let tp3 := entry_price + (entry_price - stop_loss) * 3
  [ { id := sid ++ "_entry", price := entry_price, start_time := bar_time, bars := 15,
      label := "Entry: " ++ fmt5 entry_price, color := "#3b82f6", style := "dashed", width := 1 },
    { id := sid ++ "_sl", price := stop_loss, start_time := bar_time, bars := 15,
      label := "SL: " ++ fmt5 stop_loss, color := "#ef4444", style := "solid", width := 2 },
    { id := sid ++ "_tp1", price := tp1, start_time := bar_time, bars := 15,
      label := "TP1: " ++ fmt5 tp1, color := "#22c55e", style := "dotted", width := 1 },
    { id := sid ++ "_tp2", price := tp2, start_time := bar_time, bars := 15,
      label := "TP2: " ++ fmt5 tp2, color := "#10b981", style := "dotted", width := 1 },
    { id := sid ++ "_tp3", price := tp3, start_time := bar_time, bars := 15,
      label := "TP3: " ++ fmt5 tp3, color := "#059669", style := "dotted", width := 1 } ]

/-- The five lines of a bearish signal (lines 260–330). -/
def bearishLines (prev curr : Bar) (sid : String) : List Line :=
  let bar_time := curr.time
  let entry_price := curr.close
  let stop_loss := prev.high + 0.0005
  let tp1 := entry_price - (stop_loss - entry_price) * 1
  let tp2 := entry_price - (stop_loss - entry_price) * 2
  let tp3 := entry_price - (stop_loss - entry_price) * 3
  [ { id := sid ++ "_entry", price := entry_price, start_time := bar_time, bars := 15,
      label := "Entry: " ++ fmt5 entry_price, color := "#f97316", style := "dashed", width := 1 },
    { id := sid ++ "_sl", price := stop_loss, start_time := bar_time, bars := 15,
      label := "SL: " ++ fmt5 stop_loss, color := "#ef4444", style := "solid", width := 2 },
    { id := sid ++ "_tp1", price := tp1, start_time := bar_time, bars := 15,
      label := "TP1: " ++ fmt5 tp1, color := "#22c55e", style := "dotted", width := 1 },
    { id := sid ++ "_tp2", price := tp2, start_time := bar_time, bars := 15,
      label := "TP2: " ++ fmt5 tp2, color := "#10b981", style := "dotted", width := 1 },
    { id := sid ++ "_tp3", price := tp3, start_time := bar_time, bars := 15,
      label := "TP3: " ++ fmt5 tp3, color := "#059669", style := "dotted", width := 1 } ]

/-- The loop body for one detected inside bar (lines 173–330): classify by the
midpoint, then emit the marker and the five lines of signal number `cnt`. -/
def signalBatch (prev curr : Bar) (cnt : Nat) : List Point × List Line :=
  if curr.close > mid_point prev then
    ([bullishPoint curr], bullishLines prev curr (signal_id cnt))
  else
    ([bearishPoint curr], bearishLines prev curr (signal_id cnt))

/-- The loop `for i in range(2, len(bars))` walks the consecutive pairs
`(bars[i-1], bars[i])` for `i ≥ 2`; `genLoop` folds over that pair list,
threading `signal_count`. -/
def genLoop : List (Bar × Bar) → Nat → List Point × List Line
  | [], _ => ([], [])
  | (prev, curr) :: rest, cnt =>
    if isInsideBar prev curr then
      let b := signalBatch prev curr cnt
      let r := genLoop rest (cnt + 1)
      (b.1 ++ r.1, b.2 ++ r.2)
    else
      genLoop rest cnt

/-- Adjacent pairs of a list: `[(l₀,l₁), (l₁,l₂), …]`. -/
def adjPairs : List Bar → List (Bar × Bar)
  | x :: y :: r => (x, y) :: adjPairs (y :: r)
  | _ => []

/-- The pairs `(bars[i-1], bars[i])` visited by `for i in range(2, len(bars))`. -/
def pairsFrom2 (bars : List Bar) : List (Bar × Bar) :=
  match bars with
  | [] => []
  | _ :: rest => adjPairs rest

/-- `generate_signals` (lines 136–332): detect inside bars among consecutive
pairs from index 2 on and emit `(points, lines)`; `signal_count` starts at 0. -/
def generate_signals (bars : List Bar) : List Point × List Line :=
  genLoop (pairsFrom2 bars) 0

/-! ## The HTTP functions -/

/-- Outcome of the one GET in `get_bars`: a completed response carrying the
HTTP status and the `bars` field of the parsed JSON body (`none` when the key
is absent), or a raised exception (transport failure, including a body that
fails to parse). -/
inductive HttpGetResult where
  | ok (status : Nat) (bars? : Option (List Bar))
  | exn
deriving DecidableEq

/-- Outcome of the one POST in `submit_signals`: a completed response with its
HTTP status, or a raised exception. -/
inductive HttpPostResult where
  | ok (status : Nat)
  | exn
deriving DecidableEq

/-- `get_bars` (lines 35–71) as a function of the transport outcome: on
status 200 return `data.get("bars", [])`, on any other status return `None`,
and on any exception return `None`. -/
def get_bars (r : HttpGetResult) : Option (List Bar) :=
  match r with
  | .ok status bars? => if status = 200 then some (bars?.getD []) else none
  | .exn => none

/-- `submit_signals` (lines 74–129) as a function of its payload and the
transport outcome: `True` iff the status is in `[200, 201]`, `False` on any
other status or exception. -/
def submit_signals (points : List Point) (lines : Option (List Line))
    (r : HttpPostResult) : Bool :=
  match r with
  | .ok status => decide (status = 200 ∨ status = 201)
  | .exn => false

/-- `run_once` (lines 339–398) as a function of the two transport outcomes.
The first component is the Python return value; the second records whether
`submit_signals` was called. -/
def run_once (fr : HttpGetResult) (pr : HttpPostResult) : Bool × Bool :=
  match get_bars fr with
  | none => (false, false)
  | some bars =>
    if bars.isEmpty then
      (false, false)
    else
      let pl := generate_signals bars
      if pl.1.isEmpty && pl.2.isEmpty then
        (true, false)
      else
        (submit_signals pl.1 (some pl.2) pr, true)

/-! ## Per-index emissions

To state "what `generate_signals` emits for index `i`" we decompose the loop:
`emissionAt bars i` is the `(points, lines)` contribution of iteration `i`
(the pair `(bars[i-1], bars[i])`), with the signal counter equal to the
number of inside bars detected at earlier iterations. -/

/-- `bars[i]` with a default out of range (the loop never reads out of range). -/
def barAt (bars : List Bar) (i : Nat) : Bar :=
  bars.getD i default

/-- The inside-bar test on a pair. -/
def pairQ (pc : Bar × Bar) : Bool :=
  isInsideBar pc.1 pc.2

/-- How many pairs of `ps` are inside bars. -/
def countQ (ps : List (Bar × Bar)) : Nat :=
  (ps.filter pairQ).length

/-- The value of `signal_count` when the loop reaches index `i`. -/
def countInsideBefore (bars : List Bar) (i : Nat) : Nat :=
  countQ ((pairsFrom2 bars).take (i - 2))

/-- What iteration `i` of the loop appends to `(points, lines)`. -/
def emissionAt (bars : List Bar) (i : Nat) : List Point × List Line :=
  if 2 ≤ i ∧ i < bars.length ∧ isInsideBar (barAt bars (i - 1)) (barAt bars i) = true then
    signalBatch (barAt bars (i - 1)) (barAt bars i) (countInsideBefore bars i)
  else
    ([], [])

/-- What the iteration on pair `j` of `ps` appends, the counter having started
at `cnt` before pair `0`. -/
def pairEmit (ps : List (Bar × Bar)) (cnt j : Nat) : List Point × List Line :=
  let pc := ps.getD j default
  if pairQ pc then signalBatch pc.1 pc.2 (cnt + countQ (ps.take j)) else ([], [])

lemma countQ_nil : countQ [] = 0 := rfl

lemma countQ_cons (p : Bar × Bar) (l : List (Bar × Bar)) :
    countQ (p :: l) = (if pairQ p then 1 else 0) + countQ l := by
  simp only [countQ, List.filter_cons]
  split
  · simp [Nat.add_comm]
  · simp

lemma pairEmit_cons_zero (p : Bar × Bar) (l : List (Bar × Bar)) (cnt : Nat) :
    pairEmit (p :: l) cnt 0 = if pairQ p then signalBatch p.1 p.2 cnt else ([], []) := by
  simp [pairEmit, countQ]

lemma pairEmit_cons_succ (p : Bar × Bar) (l : List (Bar × Bar)) (cnt j : Nat) :
    pairEmit (p :: l) cnt (j + 1) = pairEmit l (cnt + if pairQ p then 1 else 0) j := by
  simp only [pairEmit, List.getD_cons_succ, List.take_succ_cons, countQ_cons, Nat.add_assoc]

/-- The loop is the concatenation of its per-pair emissions. -/
lemma genLoop_eq_bind (ps : List (Bar × Bar)) (cnt : Nat) :
    genLoop ps cnt
      = ((List.range ps.length).flatMap fun j => (pairEmit ps cnt j).1,
         (List.range ps.length).flatMap fun j => (pairEmit ps cnt j).2) := by
  induction ps generalizing cnt with
  | nil => simp [genLoop]
  | cons p rest ih =>
    obtain ⟨prev, curr⟩ := p
    simp only [List.length_cons, List.range_succ_eq_map, List.flatMap_cons, List.flatMap_map,
      pairEmit_cons_zero, pairEmit_cons_succ]
    by_cases hq : pairQ (prev, curr)
    · have hq' : isInsideBar prev curr = true := hq
      simp only [genLoop, hq', if_pos, ih (cnt + 1), hq, if_true]
    · have hq' : ¬ isInsideBar prev curr = true := hq
      simp only [genLoop, hq', if_neg, ih cnt, hq, if_false, Bool.false_eq_true,
        List.nil_append, Nat.add_zero]

lemma adjPairs_length (l : List Bar) : (adjPairs l).length = l.length - 1 := by
  induction l with
  | nil => rfl
  | cons x t ih =>
    cases t with
    | nil => rfl
    | cons y r =>
      simp only [adjPairs, List.length_cons] at *
      omega

lemma pairsFrom2_length (bars : List Bar) : (pairsFrom2 bars).length = bars.length - 2 := by
  cases bars with
  | nil => rfl
  | cons b rest =>
    simp only [pairsFrom2, adjPairs_length, List.length_cons]
    omega

lemma adjPairs_getD (l : List Bar) (j : Nat) (h : j + 1 < l.length) :
    (adjPairs l).getD j default = (l.getD j default, l.getD (j + 1) default) := by
  induction l generalizing j with
  | nil => simp at h
  | cons x t ih =>
    cases t with
    | nil => simp at h
    | cons y r =>
      cases j with
      | zero => rfl
      | succ k =>
        have hk : k + 1 < (y :: r).length := by
          simp only [List.length_cons] at h ⊢; omega
        simpa only [adjPairs, List.getD_cons_succ] using ih k hk

lemma pairsFrom2_getD (bars : List Bar) (j : Nat) (h : j + 2 < bars.length) :
    (pairsFrom2 bars).getD j default = (barAt bars (j + 1), barAt bars (j + 2)) := by
  cases bars with
  | nil => simp at h
  | cons b rest =>
    have h' : j + 1 < rest.length := by
      simp only [List.length_cons] at h; omega
    simp only [pairsFrom2, barAt, List.getD_cons_succ]
    exact adjPairs_getD rest j h'

lemma emissionAt_of_not_range (bars : List Bar) (i : Nat)
    (h : ¬ (2 ≤ i ∧ i < bars.length ∧ isInsideBar (barAt bars (i - 1)) (barAt bars i) = true)) :
    emissionAt bars i = ([], []) := by
  simp [emissionAt, h]

lemma pairEmit_eq_emissionAt (bars : List Bar) (j : Nat) (h : j + 2 < bars.length) :
    pairEmit (pairsFrom2 bars) 0 j = emissionAt bars (j + 2) := by
  have hg := pairsFrom2_getD bars j h
  simp only [pairEmit, hg, pairQ, emissionAt, countInsideBefore, Nat.add_sub_cancel,
    Nat.zero_add]
  by_cases hib : isInsideBar (barAt bars (j + 1)) (barAt bars (j + 2)) = true
  · rw [if_pos hib, if_pos ⟨by omega, h, by simpa using hib⟩]
    rfl
  · rw [if_neg hib, if_neg (by simp only [not_and]; intro _ _; simpa using hib)]

lemma flatMap_congr {α β : Type} (l : List α) {f g : α → List β}
    (h : ∀ x ∈ l, f x = g x) : l.flatMap f = l.flatMap g := by
  induction l with
  | nil => rfl
  | cons a t ih =>
    simp only [List.flatMap_cons, h a (List.mem_cons_self a t),
      ih fun x hx => h x (List.mem_cons_of_mem a hx)]

/-- Master decomposition: `generate_signals` is the concatenation, over all
indices, of the per-index emissions. -/
lemma generate_signals_eq_emissions (bars : List Bar) :
    generate_signals bars
      = ((List.range bars.length).flatMap fun i => (emissionAt bars i).1,
         (List.range bars.length).flatMap fun i => (emissionAt bars i).2) := by
  have hlen := pairsFrom2_length bars
  rw [show generate_signals bars = genLoop (pairsFrom2 bars) 0 from rfl,
    genLoop_eq_bind, hlen]
  by_cases h2 : bars.length < 2
  · have hz : bars.length - 2 = 0 := by omega
    have hre : ∀ i ∈ List.range bars.length, emissionAt bars i = ([], []) := by
      intro i hi
      exact emissionAt_of_not_range bars i fun hc => absurd hc.1 (by omega)
    have e1 : (List.range bars.length).flatMap (fun i => (emissionAt bars i).1) = [] := by
      rw [List.flatMap_eq_nil_iff]
      intro i hi
      rw [hre i hi]
    have e2 : (List.range bars.length).flatMap (fun i => (emissionAt bars i).2) = [] := by
      rw [List.flatMap_eq_nil_iff]
      intro i hi
      rw [hre i hi]
    simp [hz, e1, e2]
  · have hsplit : List.range bars.length
        = List.range 2 ++ (List.range (bars.length - 2)).map (2 + ·) := by
      have h22 : 2 + (bars.length - 2) = bars.length := by omega
      calc List.range bars.length = List.range (2 + (bars.length - 2)) := by rw [h22]
        _ = List.range 2 ++ (List.range (bars.length - 2)).map (2 + ·) :=
            List.range_add 2 (bars.length - 2)
    have h0 : emissionAt bars 0 = ([], []) :=
      emissionAt_of_not_range bars 0 fun hc => absurd hc.1 (by omega)
    have h1 : emissionAt bars 1 = ([], []) :=
      emissionAt_of_not_range bars 1 fun hc => absurd hc.1 (by omega)
    have hpt : ∀ j ∈ List.range (bars.length - 2),
        pairEmit (pairsFrom2 bars) 0 j = emissionAt bars (2 + j) := by
      intro j hj
      have hj' : j < bars.length - 2 := List.mem_range.mp hj
      rw [Nat.add_comm 2 j]
      exact pairEmit_eq_emissionAt bars j (by omega)
    rw [hsplit]
    have hr2 : List.range 2 = [0, 1] := rfl
    refine Prod.ext ?_ ?_ <;>
      simp only [List.flatMap_append, List.flatMap_map, hr2, List.flatMap_cons,
        List.flatMap_nil, h0, h1, List.append_nil, List.nil_append, Function.comp]
    · exact (flatMap_congr _ fun j hj => by rw [hpt j hj]).symm
    · exact (flatMap_congr _ fun j hj => by rw [hpt j hj]).symm

/-! ## Shape of a signal batch and of the whole loop output -/

/-- The five line-id suffixes of one signal batch (lines 204, 215, 226, 237, 248). -/
def lineSuffixes : List String :=
  ["_entry", "_sl", "_tp1", "_tp2", "_tp3"]

/-- The five line ids of signal number `k`. -/
def lineIdsOfBatch (k : Nat) : List String :=
  lineSuffixes.map fun s => signal_id k ++ s

lemma signalBatch_points_length (prev curr : Bar) (cnt : Nat) :
    (signalBatch prev curr cnt).1.length = 1 := by
  unfold signalBatch
  split <;> rfl

lemma signalBatch_lines_length (prev curr : Bar) (cnt : Nat) :
    (signalBatch prev curr cnt).2.length = 5 := by
  unfold signalBatch
  split <;> rfl

lemma signalBatch_lines_ids (prev curr : Bar) (cnt : Nat) :
    (signalBatch prev curr cnt).2.map Line.id = lineIdsOfBatch cnt := by
  unfold signalBatch
  split <;> rfl

lemma signalBatch_lines_start (prev curr : Bar) (cnt : Nat) :
    (signalBatch prev curr cnt).2.map Line.start_time
      = (signalBatch prev curr cnt).1.flatMap fun p => List.replicate 5 p.time := by
  unfold signalBatch
  split <;> rfl

lemma signalBatch_lines_bars (prev curr : Bar) (cnt : Nat) :
    (signalBatch prev curr cnt).2.map Line.bars = List.replicate 5 15 := by
  unfold signalBatch
  split <;> rfl

lemma genLoop_points_length (ps : List (Bar × Bar)) (cnt : Nat) :
    (genLoop ps cnt).1.length = countQ ps := by
  induction ps generalizing cnt with
  | nil => rfl
  | cons p rest ih =>
    obtain ⟨prev, curr⟩ := p
    rw [countQ_cons]
    by_cases hq : isInsideBar prev curr = true
    · have hpq : pairQ (prev, curr) = true := hq
      simp [genLoop, hq, hpq, ih (cnt + 1), signalBatch_points_length]
    · have hpq : ¬ pairQ (prev, curr) = true := hq
      simp [genLoop, hq, hpq, ih cnt]

lemma genLoop_lines_length (ps : List (Bar × Bar)) (cnt : Nat) :
    (genLoop ps cnt).2.length = 5 * (genLoop ps cnt).1.length := by
  induction ps generalizing cnt with
  | nil => rfl
  | cons p rest ih =>
    obtain ⟨prev, curr⟩ := p
    by_cases hq : isInsideBar prev curr = true
    · simp only [genLoop, hq, if_true, List.length_append, signalBatch_points_length,
        signalBatch_lines_length, ih (cnt + 1)]
      omega
    · simp only [genLoop, hq, if_false, Bool.false_eq_true]
      exact ih cnt

lemma genLoop_lines_ids (ps : List (Bar × Bar)) (cnt : Nat) :
    (genLoop ps cnt).2.map Line.id
      = (List.range' cnt (countQ ps)).flatMap lineIdsOfBatch := by
  induction ps generalizing cnt with
  | nil => rfl
  | cons p rest ih =>
    obtain ⟨prev, curr⟩ := p
    rw [countQ_cons]
    by_cases hq : isInsideBar prev curr = true
    · have hpq : pairQ (prev, curr) = true := hq
      simp only [genLoop, hq, if_true, hpq, List.map_append, signalBatch_lines_ids,
        ih (cnt + 1), Nat.add_comm 1 (countQ rest), List.range'_succ, List.flatMap_cons]
    · have hpq : ¬ pairQ (prev, curr) = true := hq
      simp only [genLoop, hq, if_false, Bool.false_eq_true, hpq, Nat.zero_add]
      exact ih cnt

lemma genLoop_lines_start (ps : List (Bar × Bar)) (cnt : Nat) :
    (genLoop ps cnt).2.map Line.start_time
      = (genLoop ps cnt).1.flatMap fun p => List.replicate 5 p.time := by
  induction ps generalizing cnt with
  | nil => rfl
  | cons p rest ih =>
    obtain ⟨prev, curr⟩ := p
    by_cases hq : isInsideBar prev curr = true
    · simp only [genLoop, hq, if_true, List.map_append, List.flatMap_append,
        signalBatch_lines_start, ih (cnt + 1)]
    · simp only [genLoop, hq, if_false, Bool.false_eq_true]
      exact ih cnt

lemma genLoop_lines_bars (ps : List (Bar × Bar)) (cnt : Nat) :
    (genLoop ps cnt).2.map Line.bars
      = List.replicate ((genLoop ps cnt).2.length) 15 := by
  induction ps generalizing cnt with
  | nil => rfl
  | cons p rest ih =>
    obtain ⟨prev, curr⟩ := p
    by_cases hq : isInsideBar prev curr = true
    · simp only [genLoop, hq, if_true, List.map_append, List.length_append,
        signalBatch_lines_bars, signalBatch_lines_length, ih (cnt + 1),
        List.replicate_add]
    · simp only [genLoop, hq, if_false, Bool.false_eq_true]
      exact ih cnt

/-! ## Injectivity of the line ids

A line id is `signal_` ++ zero-padded decimal counter ++ one of five
suffixes starting with an underscore.  Parsing the decimal part back
shows the id determines the counter and the suffix. -/

/-- Numeric value of a decimal digit character. -/
def charVal (c : Char) : Nat :=
  c.toNat - 48

/-- Read a digit string back as a number (leading zeros are harmless). -/
def parseDec (l : List Char) : Nat :=
  l.foldl (fun a c => 10 * a + charVal c) 0

lemma charVal_digitChar {d : Nat} (h : d < 10) : charVal (Nat.digitChar d) = d := by
  interval_cases d <;> rfl

lemma digitChar_isDigit {d : Nat} (h : d < 10) : (Nat.digitChar d).isDigit = true := by
  interval_cases d <;> rfl

lemma decDigitsAux_foldl (fuel : Nat) : ∀ n a, n < fuel →
    List.foldl (fun a c => 10 * a + charVal c) a (decDigitsAux fuel n)
      = a * 10 ^ (decDigitsAux fuel n).length + n := by
  induction fuel with
  | zero => exact fun n a h => absurd h (Nat.not_lt_zero n)
  | succ fuel ih =>
    intro n a h
    by_cases h10 : n < 10
    · rw [decDigitsAux, if_pos h10]
      simp [List.foldl, charVal_digitChar h10, Nat.mul_comm]
    · rw [decDigitsAux, if_neg h10]
      have hd : n / 10 < fuel := by
        have h1 : n / 10 < n := Nat.div_lt_self (by omega) (by omega)
        omega
      rw [List.foldl_append, ih (n / 10) a hd]
      have hm : n % 10 < 10 := Nat.mod_lt _ (by omega)
      simp only [List.foldl, List.length_append, List.length_cons, List.length_nil,
        charVal_digitChar hm]
      rw [pow_succ]
      have hdm : 10 * (n / 10) + n % 10 = n := by omega
      ring_nf
      omega
lemma parse_decDigits (n : Nat) : parseDec (decDigits n) = n := by
  have h := decDigitsAux_foldl (n + 1) n 0 (Nat.lt_succ_self n)
  simpa [parseDec, decDigits] using h

lemma foldl_zeros (z : Nat) :
    List.foldl (fun a c => 10 * a + charVal c) 0 (List.replicate z '0') = 0 := by
  induction z with
  | zero => rfl
  | succ z ih => exact ih

lemma parse_zeroPadLeft (w n : Nat) : parseDec (zeroPadLeft w (decDigits n)) = n := by
  unfold zeroPadLeft parseDec
  rw [List.foldl_append, foldl_zeros]
  exact parse_decDigits n

lemma decDigitsAux_digits (fuel : Nat) :
    ∀ n, ∀ c ∈ decDigitsAux fuel n, c.isDigit = true := by
  induction fuel with
  | zero => intro n c hc; simp [decDigitsAux] at hc
  | succ fuel ih =>
    intro n c hc
    by_cases h10 : n < 10
    · rw [decDigitsAux, if_pos h10] at hc
      rcases List.mem_singleton.mp hc with rfl
      exact digitChar_isDigit h10
    · rw [decDigitsAux, if_neg h10] at hc
      rcases List.mem_append.mp hc with hc | hc
      · exact ih (n / 10) c hc
      · rcases List.mem_singleton.mp hc with rfl
        exact digitChar_isDigit (Nat.mod_lt _ (by omega))

lemma zeroPadLeft_digits (w n : Nat) :
    ∀ c ∈ zeroPadLeft w (decDigits n), c.isDigit = true := by
  intro c hc
  rcases List.mem_append.mp hc with hc | hc
  · rcases List.eq_of_mem_replicate hc with rfl
    rfl
  · exact decDigitsAux_digits (n + 1) n c hc

lemma digits_append_inj (a1 : List Char) : ∀ (a2 s1 s2 : List Char),
    (∀ c ∈ a1, c.isDigit = true) → (∀ c ∈ a2, c.isDigit = true) →
    s1.head? = some '_' → s2.head? = some '_' →
    a1 ++ s1 = a2 ++ s2 → a1 = a2 ∧ s1 = s2 := by
  induction a1 with
  | nil =>
    intro a2 s1 s2 _ h2 hs1 hs2 heq
    cases a2 with
    | nil => exact ⟨rfl, heq⟩
    | cons c t =>
      rw [List.nil_append] at heq
      subst heq
      simp only [List.cons_append, List.head?_cons, Option.some.injEq] at hs1
      have := h2 c (List.mem_cons_self c t)
      rw [hs1] at this
      exact absurd this (by decide)
  | cons c1 t1 ih =>
    intro a2 s1 s2 h1 h2 hs1 hs2 heq
    cases a2 with
    | nil =>
      rw [List.nil_append] at heq
      rw [← heq] at hs2
      simp only [List.cons_append, List.head?_cons, Option.some.injEq] at hs2
      have := h1 c1 (List.mem_cons_self c1 t1)
      rw [hs2] at this
      exact absurd this (by decide)
    | cons c2 t2 =>
      simp only [List.cons_append, List.cons.injEq] at heq
      obtain ⟨rfl, heq⟩ := heq
      have h1' : ∀ c ∈ t1, c.isDigit = true :=
        fun c hc => h1 c (List.mem_cons_of_mem c1 hc)
      have h2' : ∀ c ∈ t2, c.isDigit = true :=
        fun c hc => h2 c (List.mem_cons_of_mem c1 hc)
      obtain ⟨ha, hs⟩ := ih t2 s1 s2 h1' h2' hs1 hs2 heq
      exact ⟨by rw [ha], hs⟩

lemma string_append_data (a b : String) : (a ++ b).data = a.data ++ b.data :=
  rfl

lemma signal_id_append_inj {k1 k2 : Nat} {s1 s2 : String}
    (h1 : s1.data.head? = some '_') (h2 : s2.data.head? = some '_')
    (heq : signal_id k1 ++ s1 = signal_id k2 ++ s2) : k1 = k2 ∧ s1 = s2 := by
  have hdata : ("signal_".data ++ zeroPadLeft 3 (decDigits k1)) ++ s1.data
      = ("signal_".data ++ zeroPadLeft 3 (decDigits k2)) ++ s2.data := by
    have := congrArg String.data heq
    simpa [signal_id, string_append_data, String.mk] using this
  rw [List.append_assoc, List.append_assoc] at hdata
  have hdata' := List.append_cancel_left hdata
  obtain ⟨ha, hs⟩ := digits_append_inj _ _ _ _
    (zeroPadLeft_digits 3 k1) (zeroPadLeft_digits 3 k2) h1 h2 hdata'
  refine ⟨?_, ?_⟩
  · have := congrArg parseDec ha
    rwa [parse_zeroPadLeft, parse_zeroPadLeft] at this
  · cases s1
    cases s2
    exact congrArg String.mk hs

lemma lineSuffixes_head : ∀ s ∈ lineSuffixes, s.data.head? = some '_' := by
  decide

lemma lineIdsOfBatch_nodup (k : Nat) : (lineIdsOfBatch k).Nodup := by
  refine List.Nodup.map_on ?_ (by decide)
  intro s1 hs1 s2 hs2 heq
  exact (signal_id_append_inj (lineSuffixes_head s1 hs1) (lineSuffixes_head s2 hs2) heq).2

lemma lineIdsOfBatch_disjoint {k1 k2 : Nat} (h : k1 ≠ k2) :
    List.Disjoint (lineIdsOfBatch k1) (lineIdsOfBatch k2) := by
  intro a ha1 ha2
  obtain ⟨s1, hs1, rfl⟩ := List.mem_map.mp ha1
  obtain ⟨s2, hs2, heq⟩ := List.mem_map.mp ha2
  exact h (signal_id_append_inj (lineSuffixes_head s1 hs1) (lineSuffixes_head s2 hs2)
    heq.symm).1

lemma range_flatMap_ids_nodup (n : Nat) :
    ((List.range n).flatMap lineIdsOfBatch).Nodup := by
  rw [List.nodup_flatMap]
  refine ⟨fun k _ => lineIdsOfBatch_nodup k, ?_⟩
  have hp := List.pairwise_lt_range (n := n)
  exact hp.imp fun hlt => lineIdsOfBatch_disjoint (Nat.ne_of_lt hlt)

/-! ## Concrete inputs used by the witnesses and the counterexample -/

/-- A bar with the given time, high, low and close (open/volume irrelevant
to the generator). -/
def mkBar (t : Int) (h l c : ℚ) : Bar :=
  { time := t, «open» := c, high := h, low := l, close := c, volume := 0 }

/-- Three bars whose last is an inside bar closing above the previous
midpoint (the spec's own test values). -/
def wBull : List Bar :=
  [mkBar 0 2 1 (3 / 2), mkBar 1 1.1050 1.1030 1.1040, mkBar 2 1.1049 1.1031 1.1045]

/-- Two bars whose second is an inside bar of the first: the loop starts at
index 2, so nothing is emitted for index 1. -/
def cexBars : List Bar :=
  [mkBar 0 2 1 (3 / 2), mkBar 1 1.8 1.1 1.2]

/-! ## Claim theorems -/

/-- C1 counterexample: the claim quantifies over every pair of consecutive
bars, but the loop starts at index 2.  In `cexBars` the pair at index 1
satisfies the inside-bar condition, yet `generate_signals` emits no point and
no line at all. -/
theorem C1_counterexample :
    isInsideBar (barAt cexBars 0) (barAt cexBars 1) = true ∧
    generate_signals cexBars = ([], []) := by
  constructor
  · simp [isInsideBar, barAt, cexBars, mkBar]
    norm_num
  · rfl

/-- C1 (amended: restricted to the loop's indices `2 ≤ i < len(bars)`):
`generate_signals` is the concatenation of its per-index emissions, and for
every index `i ≥ 2`, iteration `i` emits exactly one point and exactly five
lines when `bars[i]` is an inside bar of `bars[i-1]`, and nothing
otherwise. -/
theorem C1_emission_counts (bars : List Bar) (i : Nat) (h2 : 2 ≤ i)
    (hi : i < bars.length) :
    generate_signals bars
      = ((List.range bars.length).flatMap fun j => (emissionAt bars j).1,
         (List.range bars.length).flatMap fun j => (emissionAt bars j).2) ∧
    (isInsideBar (barAt bars (i - 1)) (barAt bars i) = true →
      (emissionAt bars i).1.length = 1 ∧ (emissionAt bars i).2.length = 5) ∧
    (isInsideBar (barAt bars (i - 1)) (barAt bars i) = false →
      (emissionAt bars i).1 = [] ∧ (emissionAt bars i).2 = []) := by
  refine ⟨generate_signals_eq_emissions bars, ?_, ?_⟩
  · intro hib
    rw [emissionAt, if_pos ⟨h2, hi, hib⟩]
    exact ⟨signalBatch_points_length _ _ _, signalBatch_lines_length _ _ _⟩
  · intro hib
    rw [emissionAt_of_not_range bars i fun hc => by simp [hc.2.2] at hib]
    exact ⟨rfl, rfl⟩

/-- C1 witness: in `wBull`, index 2 is an inside bar and its emission is one
point and five lines. -/
theorem C1_witness :
    (emissionAt wBull 2).1.length = 1 ∧ (emissionAt wBull 2).2.length = 5 :=
  (C1_emission_counts wBull 2 (by decide) (by simp [wBull])).2.1
    (by simp [isInsideBar, barAt, wBull, mkBar]; norm_num)

/-- C2: for a detected inside bar at index `i`, the emitted point is the BUY
marker (`arrowUp`, `#3b82f6`, type `low`) exactly when the close exceeds the
previous bar's midpoint, and the SELL marker (`arrowDown`, `#f97316`, type
`high`) otherwise — midpoint equality included; price is the current close
and time the current bar's time. -/
theorem C2_direction_and_point (bars : List Bar) (i : Nat) (h2 : 2 ≤ i)
    (hi : i < bars.length)
    (hib : isInsideBar (barAt bars (i - 1)) (barAt bars i) = true) :
    generate_signals bars
      = ((List.range bars.length).flatMap fun j => (emissionAt bars j).1,
         (List.range bars.length).flatMap fun j => (emissionAt bars j).2) ∧
    ((barAt bars i).close > ((barAt bars (i - 1)).high + (barAt bars (i - 1)).low) / 2 →
      (emissionAt bars i).1
        = [{ time := (barAt bars i).time, type := "low", price := (barAt bars i).close,
             label := "BUY", color := "#3b82f6", shape := "arrowUp", size := 2 }]) ∧
    (¬ (barAt bars i).close > ((barAt bars (i - 1)).high + (barAt bars (i - 1)).low) / 2 →
      (emissionAt bars i).1
        = [{ time := (barAt bars i).time, type := "high", price := (barAt bars i).close,
             label := "SELL", color := "#f97316", shape := "arrowDown", size := 2 }]) := by
  refine ⟨generate_signals_eq_emissions bars, ?_, ?_⟩
  · intro hgt
    rw [emissionAt, if_pos ⟨h2, hi, hib⟩]
    unfold signalBatch
    rw [if_pos (show (barAt bars i).close > mid_point (barAt bars (i - 1)) from hgt)]
    rfl
  · intro hle
    rw [emissionAt, if_pos ⟨h2, hi, hib⟩]
    unfold signalBatch
    rw [if_neg (show ¬ (barAt bars i).close > mid_point (barAt bars (i - 1)) from hle)]
    rfl

/-- C2 witness: the inside bar of `wBull` closes above the midpoint and is
labelled BUY. -/
theorem C2_witness : (emissionAt wBull 2).1.map Point.label = ["BUY"] := by
  rw [(C2_direction_and_point wBull 2 (by decide) (by simp [wBull])
    (by simp [isInsideBar, barAt, wBull, mkBar]; norm_num)).2.1
    (by simp [barAt, wBull, mkBar]; norm_num)]
  rfl

/-- C3: for a detected inside bar, the five line prices are exactly
`[entry, stop, entry ± k·risk (k = 1, 2, 3)]` with `entry` the current close,
`stop = prev.low − 0.0005` (bullish) or `prev.high + 0.0005` (bearish), the
arithmetic exact over `ℚ`. -/
theorem C3_levels (bars : List Bar) (i : Nat) (h2 : 2 ≤ i) (hi : i < bars.length)
    (hib : isInsideBar (barAt bars (i - 1)) (barAt bars i) = true) :
    generate_signals bars
      = ((List.range bars.length).flatMap fun j => (emissionAt bars j).1,
         (List.range bars.length).flatMap fun j => (emissionAt bars j).2) ∧
    ((barAt bars i).close > ((barAt bars (i - 1)).high + (barAt bars (i - 1)).low) / 2 →
      (emissionAt bars i).2.map Line.price
        = [(barAt bars i).close,
           (barAt bars (i - 1)).low - 0.0005,
           (barAt bars i).close
             + ((barAt bars i).close - ((barAt bars (i - 1)).low - 0.0005)) * 1,
           (barAt bars i).close
             + ((barAt bars i).close - ((barAt bars (i - 1)).low - 0.0005)) * 2,
           (barAt bars i).close
             + ((barAt bars i).close - ((barAt bars (i - 1)).low - 0.0005)) * 3]) ∧
    (¬ (barAt bars i).close > ((barAt bars (i - 1)).high + (barAt bars (i - 1)).low) / 2 →
      (emissionAt bars i).2.map Line.price
        = [(barAt bars i).close,
           (barAt bars (i - 1)).high + 0.0005,
           (barAt bars i).close
             - (((barAt bars (i - 1)).high + 0.0005) - (barAt bars i).close) * 1,
           (barAt bars i).close
             - (((barAt bars (i - 1)).high + 0.0005) - (barAt bars i).close) * 2,
           (barAt bars i).close
             - (((barAt bars (i - 1)).high + 0.0005) - (barAt bars i).close) * 3]) := by
  refine ⟨generate_signals_eq_emissions bars, ?_, ?_⟩
  · intro hgt
    rw [emissionAt, if_pos ⟨h2, hi, hib⟩]
    unfold signalBatch
    rw [if_pos (show (barAt bars i).close > mid_point (barAt bars (i - 1)) from hgt)]
    rfl
  · intro hle
    rw [emissionAt, if_pos ⟨h2, hi, hib⟩]
    unfold signalBatch
    rw [if_neg (show ¬ (barAt bars i).close > mid_point (barAt bars (i - 1)) from hle)]
    rfl

/-- C3 witness: the bullish signal of `wBull` has entry 1.1045,
stop 1.1025 and take-profits 1.1065, 1.1085, 1.1105. -/
theorem C3_witness :
    (emissionAt wBull 2).2.map Line.price = [1.1045, 1.1025, 1.1065, 1.1085, 1.1105] := by
  rw [(C3_levels wBull 2 (by decide) (by simp [wBull])
    (by simp [isInsideBar, barAt, wBull, mkBar]; norm_num)).2.1
    (by simp [barAt, wBull, mkBar]; norm_num)]
  simp [barAt, wBull, mkBar]
  norm_num

/-- C4: `generate_signals` is a pure deterministic function of the bar list:
equal inputs give equal outputs — ids included, since the line ids are a
function of the batch ordinal alone, the counter restarting at `signal_000`
(ordinal 0) on every invocation. -/
theorem C4_deterministic (bars1 bars2 : List Bar) (h : bars1 = bars2) :
    generate_signals bars1 = generate_signals bars2 ∧
    (generate_signals bars1).2.map Line.id
      = (List.range ((generate_signals bars2).1.length)).flatMap lineIdsOfBatch := by
  subst h
  refine ⟨rfl, ?_⟩
  have hids := genLoop_lines_ids (pairsFrom2 bars1) 0
  rw [← List.range_eq_range'] at hids
  have hlen := genLoop_points_length (pairsFrom2 bars1) 0
  show (genLoop (pairsFrom2 bars1) 0).2.map Line.id
    = (List.range ((genLoop (pairsFrom2 bars1) 0).1.length)).flatMap lineIdsOfBatch
  rw [hlen]
  exact hids

/-- C4 witness at `wBull`. -/
theorem C4_witness :
    (generate_signals wBull).2.map Line.id
      = (List.range ((generate_signals wBull).1.length)).flatMap lineIdsOfBatch :=
  (C4_deterministic wBull wBull rfl).2

/-- C5: within one invocation all line ids are pairwise distinct: the k-th
batch (in bar order) carries the prefix `signal_k`, zero-padded to three
digits, with the five suffixes `_entry`, `_sl`, `_tp1`, `_tp2`, `_tp3`. -/
theorem C5_line_ids_distinct (bars : List Bar) :
    ((generate_signals bars).2.map Line.id).Nodup ∧
    (generate_signals bars).2.map Line.id
      = (List.range ((generate_signals bars).1.length)).flatMap lineIdsOfBatch ∧
    ∀ k, lineIdsOfBatch k
      = [signal_id k ++ "_entry", signal_id k ++ "_sl", signal_id k ++ "_tp1",
         signal_id k ++ "_tp2", signal_id k ++ "_tp3"] := by
  have hids := genLoop_lines_ids (pairsFrom2 bars) 0
  rw [← List.range_eq_range'] at hids
  have hlen := genLoop_points_length (pairsFrom2 bars) 0
  have heq : (generate_signals bars).2.map Line.id
      = (List.range ((generate_signals bars).1.length)).flatMap lineIdsOfBatch := by
    show (genLoop (pairsFrom2 bars) 0).2.map Line.id
      = (List.range ((genLoop (pairsFrom2 bars) 0).1.length)).flatMap lineIdsOfBatch
    rw [hlen]
    exact hids
  refine ⟨?_, heq, fun k => rfl⟩
  rw [heq]
  exact range_flatMap_ids_nodup _

/-- C6: `get_bars` returns the body's `bars` array on status 200 (the empty
list when the key is absent), and `None` on every other status and on every
transport failure; it is a total function (nothing propagates) and consumes
exactly one transport outcome (no retry). -/
theorem C6_get_bars (status : Nat) (b : Option (List Bar)) :
    get_bars (HttpGetResult.ok 200 b) = some (b.getD []) ∧
    get_bars (HttpGetResult.ok 200 none) = some [] ∧
    (status ≠ 200 → get_bars (HttpGetResult.ok status b) = none) ∧
    get_bars HttpGetResult.exn = none := by
  refine ⟨rfl, rfl, fun h => ?_, rfl⟩
  simp [get_bars, h]

/-- C6 witness: a 404 response yields `None`. -/
theorem C6_witness : get_bars (HttpGetResult.ok 404 (some [])) = none :=
  (C6_get_bars 404 (some [])).2.2.1 (by decide)

/-- C7: `submit_signals` returns `True` exactly for status 200 or 201, and
`False` for every other status and for a transport failure; it is total. -/
theorem C7_submit_result (points : List Point) (lines : Option (List Line))
    (status : Nat) :
    (submit_signals points lines (HttpPostResult.ok status) = true
      ↔ status = 200 ∨ status = 201) ∧
    submit_signals points lines HttpPostResult.exn = false := by
  refine ⟨?_, rfl⟩
  simp [submit_signals]

/-- C7 witness: status 201 is a success. -/
theorem C7_witness : submit_signals [] none (HttpPostResult.ok 201) = true :=
  (C7_submit_result [] none 201).1.mpr (Or.inr rfl)

/-- C8: when the fetch yields `None` or the empty list, the single-shot run
returns failure and performs no submission call. -/
theorem C8_no_bars_aborts (fr : HttpGetResult) (pr : HttpPostResult)
    (h : get_bars fr = none ∨ get_bars fr = some []) :
    run_once fr pr = (false, false) := by
  rcases h with h | h <;> simp [run_once, h]

/-- C8 witness: a failed transport leads to failure and no submission. -/
theorem C8_witness : run_once HttpGetResult.exn HttpPostResult.exn = (false, false) :=
  C8_no_bars_aborts HttpGetResult.exn HttpPostResult.exn (Or.inl rfl)

/-- C9: when the fetched bars are non-empty and the generator emits no point
and no line, the single-shot run returns success and performs no submission
call. -/
theorem C9_no_signals_success (fr : HttpGetResult) (pr : HttpPostResult)
    (bars : List Bar) (hb : get_bars fr = some bars) (hne : bars ≠ [])
    (hg : generate_signals bars = ([], [])) :
    run_once fr pr = (true, false) := by
  have hne' : bars.isEmpty = false := by
    cases bars with
    | nil => exact absurd rfl hne
    | cons b t => rfl
  simp [run_once, hb, hne', hg]

/-- C9 witness: one fetched bar (no possible inside bar) gives success
without submission. -/
theorem C9_witness :
    run_once (HttpGetResult.ok 200 (some [mkBar 0 2 1 1])) HttpPostResult.exn
      = (true, false) :=
  C9_no_signals_success _ _ [mkBar 0 2 1 1] rfl (List.cons_ne_nil _ _) rfl

/-- C10: `generate_signals` always returns five lines per point; the lines'
start times are the points' times, five apiece in order, and every line
extends 15 bars. -/
theorem C10_lines_shape (bars : List Bar) :
    (generate_signals bars).2.length = 5 * (generate_signals bars).1.length ∧
    (generate_signals bars).2.map Line.start_time
      = ((generate_signals bars).1.flatMap fun p => List.replicate 5 p.time) ∧
    (generate_signals bars).2.map Line.bars
      = List.replicate ((generate_signals bars).2.length) 15 :=
  ⟨genLoop_lines_length _ _, genLoop_lines_start _ _, genLoop_lines_bars _ _⟩

end SignalGenerator
